import Mathlib

/-!
Verification of the icepeek core: a shallow embedding of the filter
compiler (`src/model/filter.rs`), the scan limiter (`src/loader/scan.rs`),
the background-task message traces and the foreground state machine
(`src/app.rs`), with theorems settling the specification claims.

Rust strings are embedded as `List Char`; byte indices (Rust `&str`
slicing) are modelled explicitly through UTF-8 widths, and slicing at an
invalid byte index — which panics in Rust — is modelled by the `crash`
outcome of `RRes`.
-/

namespace Icepeek

/-- Outcome of a Rust computation that may panic: `crash` models a panic
(string slicing at an out-of-bounds or non-boundary byte index). -/
inductive RRes (α : Type) : Type where
  | crash : RRes α
  | val : α → RRes α
deriving DecidableEq, Repr

/-- Number of bytes of a character in UTF-8 (as Rust `char::len_utf8`). -/
def utf8Size (c : Char) : Nat :=
  if c.val < 0x80 then 1
  else if c.val < 0x800 then 2
  else if c.val < 0x10000 then 3
  else 4

/-- Byte length of a string (Rust `str::len`). -/
def utf8Len (s : List Char) : Nat :=
  (s.map utf8Size).sum

/-- The apostrophe character `'`, written numerically. -/
def quoteChar : Char := Char.ofNat 39

/-- Rust `&s[n..]`: drop the first `n` BYTES. `none` models the panic on an
out-of-bounds index or an index that is not a character boundary. -/
def byteDropFrom : List Char → Nat → Option (List Char)
  | s, 0 => some s
  | [], _ + 1 => none
  | c :: cs, n + 1 =>
    if utf8Size c ≤ n + 1 then byteDropFrom cs (n + 1 - utf8Size c) else none

/-- Rust `&s[..n]`: take the first `n` BYTES. `none` models the panic on an
out-of-bounds index or an index that is not a character boundary. -/
def byteTakeTo : List Char → Nat → Option (List Char)
  | _, 0 => some []
  | [], _ + 1 => none
  | c :: cs, n + 1 =>
    if utf8Size c ≤ n + 1 then
      (byteTakeTo cs (n + 1 - utf8Size c)).map (c :: ·)
    else none

/-- Uppercase mapping of one character, as Rust `str::to_uppercase` maps it.
Exact on ASCII; of the non-ASCII characters only the two exercised by the
development are mapped (U+0131 LATIN SMALL LETTER DOTLESS I ⇒ `I`, and
U+FB00 LATIN SMALL LIGATURE FF ⇒ `FF`, both per the Unicode uppercase
mapping used by Rust); every other character is kept unchanged. -/
def rustCharUpper (c : Char) : List Char :=
  if c = Char.ofNat 0x131 then [Char.ofNat 73]
  else if c = Char.ofNat 0xFB00 then [Char.ofNat 70, Char.ofNat 70]
  else if 97 ≤ c.toNat ∧ c.toNat ≤ 122 then [Char.ofNat (c.toNat - 32)]
  else [c]

/-- Rust `str::to_uppercase` (restricted as in `rustCharUpper`). -/
def rustToUpper (s : List Char) : List Char :=
  (s.map rustCharUpper).flatten

/-- Lowercase mapping of one character (Rust `char::to_lowercase`,
restricted to ASCII, which covers every character this development feeds
to it). -/
def rustCharLower (c : Char) : Char :=
  if 65 ≤ c.toNat ∧ c.toNat ≤ 90 then Char.ofNat (c.toNat + 32) else c

/-- Rust `str::to_lowercase` (ASCII-restricted as in `rustCharLower`). -/
def rustToLower (s : List Char) : List Char :=
  s.map rustCharLower

/-- Rust `str::trim`: strip whitespace from both ends (the inputs this
development uses only carry ASCII whitespace, where `Char.isWhitespace`
agrees with Rust `char::is_whitespace`). -/
def rustTrim (s : List Char) : List Char :=
  ((s.dropWhile Char.isWhitespace).reverse.dropWhile Char.isWhitespace).reverse

/-- Rust `str::find` for a non-empty pattern: byte index of the first
occurrence of `pat` as a substring, or `none`. The patterns used are
ASCII, so every occurrence starts on a character boundary. -/
def findSubGo (pat : List Char) : List Char → Nat → Option Nat
  | [], _ => none
  | c :: rest, i =>
    if pat.isPrefixOf (c :: rest) then some i
    else findSubGo pat rest (i + utf8Size c)

/-- Rust `str::find` (byte index of the first substring occurrence). -/
def findSub (s pat : List Char) : Option Nat :=
  findSubGo pat s 0

/-! ## The predicate data model (`iceberg::expr::Predicate`, `iceberg::spec::Datum`) -/

/-- Comparison operators of a `Compare` node. -/
inductive CmpOp : Type where
  | geOp | leOp | neOp | gtOp | ltOp | eqOp
deriving DecidableEq, Repr

/-- A typed literal (`iceberg::spec::Datum`). A float datum
(`Datum::double`) is abstracted as the literal text it was parsed from:
no claim depends on IEEE-754 values, only on which type a literal gets. -/
inductive Datum : Type where
  | long : Int → Datum
  | double : List Char → Datum
  | str : List Char → Datum
  | boolean : Bool → Datum
deriving DecidableEq, Repr

/-- The predicate tree built by the filter compiler
(`iceberg::expr::Predicate`, restricted to the constructors the compiler
produces: `and`, `or`, the six comparisons, `is_null`, `is_not_null`,
`is_in`). -/
inductive Pred : Type where
  | andP : Pred → Pred → Pred
  | orP : Pred → Pred → Pred
  | compare : List Char → CmpOp → Datum → Pred
  | isNullP : List Char → Pred
  | isNotNullP : List Char → Pred
  | inP : List Char → List Datum → Pred
deriving DecidableEq, Repr

/-! ## The filter compiler (`src/model/filter.rs`) -/

/-- Loop body of `split_combinator`: iterate `input.char_indices()` (the
list argument with its byte offset `i`), toggling ` in_quote` on each
apostrophe, and when outside quotes test whether `upper[i..]` starts with
the combinator; on a match return `(input[..i].trim(),
input[i + combinator.len()..].trim())`. Slicing `upper` at a byte offset
of `input` can panic when the uppercased text has different byte widths —
that path is `crash`. -/
def splitCombinatorGo (orig upper comb : List Char) :
    List Char → Nat → Bool → RRes (Option (List Char × List Char))
  | [], _, _ => .val none
  | c :: rest, i, inQuote =>
    let inQuote' := if c = quoteChar then !inQuote else inQuote
    if inQuote' then splitCombinatorGo orig upper comb rest (i + utf8Size c) inQuote'
    else
      match byteDropFrom upper i with
      | none => .crash
      | some suffix =>
        if comb.isPrefixOf suffix then
          match byteTakeTo orig i, byteDropFrom orig (i + utf8Len comb) with
          | some l, some r => .val (some (rustTrim l, rustTrim r))
          | _, _ => .crash
        else splitCombinatorGo orig upper comb rest (i + utf8Size c) inQuote'

/-- `split_combinator` (filter.rs): split on the first occurrence of the
combinator outside single quotes, comparing against the uppercased input. -/
def split_combinator (input comb : List Char) : RRes (Option (List Char × List Char)) :=
  splitCombinatorGo input (rustToUpper input) comb input 0 false

/-- Loop body of `find_keyword_pos` (filter.rs): scan `upper` itself with
the quote flag; here index and slice agree, so no panic is possible. -/
def findKeywordPosGo (kw : List Char) : List Char → Nat → Bool → Option Nat
  | [], _, _ => none
  | c :: rest, i, inQuote =>
    let inQuote' := if c = quoteChar then !inQuote else inQuote
    if !inQuote' && kw.isPrefixOf (c :: rest) then some i
    else findKeywordPosGo kw rest (i + utf8Size c) inQuote'

/-- `find_keyword_pos` (filter.rs). -/
def find_keyword_pos (upper kw : List Char) : Option Nat :=
  findKeywordPosGo kw upper 0 false

/-- Loop body of `parse_list_values` (filter.rs): apostrophes toggle the
quote flag and are dropped; an unquoted comma flushes the trimmed current
value (dropping it when empty); other characters are pushed when inside
quotes or not whitespace. -/
def parseListValuesGo : List Char → List (List Char) → List Char → Bool → List (List Char)
  | [], values, current, _ =>
    let t := rustTrim current
    if t.isEmpty then values else values ++ [t]
  | c :: rest, values, current, inQuote =>
    if c = quoteChar then parseListValuesGo rest values current (!inQuote)
    else if c = Char.ofNat 44 && !inQuote then
      let t := rustTrim current
      parseListValuesGo rest (if t.isEmpty then values else values ++ [t]) [] inQuote
    else if inQuote || !c.isWhitespace then
      parseListValuesGo rest values (current ++ [c]) inQuote
    else parseListValuesGo rest values current inQuote

/-- `parse_list_values` (filter.rs). It never fails. -/
def parse_list_values (input : List Char) : List (List Char) :=
  parseListValuesGo input [] [] false

/-- All-digit check and value (the digits of a Rust integer literal). -/
def parseDigits : List Char → Option Nat
  | [] => none
  | s => if s.all Char.isDigit then some (s.foldl (fun n c => n * 10 + (c.toNat - 48)) 0) else none

/-- Rust `str::parse::<i64>()`: optional sign, then decimal digits, the
value fitting in a signed 64-bit integer. -/
def rustParseI64 (s : List Char) : Option Int :=
  match s with
  | c :: rest =>
    if c = Char.ofNat 43 then
      (parseDigits rest).bind fun n => if n ≤ 2 ^ 63 - 1 then some (n : Int) else none
    else if c = Char.ofNat 45 then
      (parseDigits rest).bind fun n => if n ≤ 2 ^ 63 then some (-(n : Int)) else none
    else
      (parseDigits s).bind fun n => if n ≤ 2 ^ 63 - 1 then some (n : Int) else none
  | [] => none

/-- Digit run acceptor for the float grammar. -/
def digits1 : List Char → Option (List Char)
  | c :: rest => if c.isDigit then some ((c :: rest).dropWhile Char.isDigit) else none
  | [] => none

/-- Exponent part acceptor: `(e|E) sign? digits+`, or nothing. -/
def f64AcceptsExp : List Char → Bool
  | [] => true
  | c :: rest =>
    if c = Char.ofNat 101 ∨ c = Char.ofNat 69 then
      match rest with
      | d :: rest' =>
        if d = Char.ofNat 43 ∨ d = Char.ofNat 45 then
          match digits1 rest' with
          | some [] => true
          | _ => false
        else
          match digits1 rest with
          | some [] => true
          | _ => false
      | [] => false
    else false

/-- Mantissa-and-exponent acceptor: `digits+ (. digits*)? exp?` or
`. digits+ exp?`. -/
def f64AcceptsMantissa (s : List Char) : Bool :=
  match digits1 s with
  | some rest =>
    match rest with
    | c :: rest' =>
      if c = Char.ofNat 46 then f64AcceptsExp (rest'.dropWhile Char.isDigit)
      else f64AcceptsExp rest
    | [] => true
  | none =>
    match s with
    | c :: rest =>
      if c = Char.ofNat 46 then
        match digits1 rest with
        | some rest' => f64AcceptsExp rest'
        | none => false
      else false
    | [] => false

/-- Whether Rust `str::parse::<f64>()` accepts the string: optional sign,
then a decimal mantissa with optional exponent, or one of the special
words `inf`, `infinity`, `nan` (case-insensitive). Only acceptance is
modelled; the parsed IEEE-754 value is abstracted (see `Datum.double`). -/
def rustParseF64Accepts (s : List Char) : Bool :=
  let body :=
    match s with
    | c :: rest => if c = Char.ofNat 43 ∨ c = Char.ofNat 45 then rest else s
    | [] => s
  let low := rustToLower body
  low = "inf".toList || low = "infinity".toList || low = "nan".toList ||
    f64AcceptsMantissa body

/-- `string_to_datum` (filter.rs): trim; single-quoted ⇒ string; else try
i64, then f64, then case-insensitive `true`/`false`, else fall back to a
string datum. -/
def string_to_datum (val0 : List Char) : Datum :=
  let val := rustTrim val0
  if val.head? = some quoteChar ∧ val.getLast? = some quoteChar ∧ 2 ≤ val.length then
    .str ((val.drop 1).dropLast)
  else
    match rustParseI64 val with
    | some i => .long i
    | none =>
      if rustParseF64Accepts val then .double val
      else if rustToLower val = "true".toList then .boolean true
      else if rustToLower val = "false".toList then .boolean false
      else .str val

/-- The operator table of `parse_comparison` (filter.rs), in its fixed
priority order `>=, <=, !=, >, <, =`. -/
def opTable : List (List Char × CmpOp) :=
  [(">=".toList, .geOp), ("<=".toList, .leOp), ("!=".toList, .neOp),
   (">".toList, .gtOp), ("<".toList, .ltOp), ("=".toList, .eqOp)]

/-- The `for op in &operators` loop of `parse_comparison`: try each symbol
in order; the first one found anywhere in the clause wins, splitting the
clause at that occurrence. -/
def tryOps (input : List Char) : List (List Char × CmpOp) → RRes (Except (List Char) Pred)
  | [] => .val (.error ("cannot parse filter expression: ".toList ++ input))
  | (sym, op) :: rest =>
    match findSub input sym with
    | none => tryOps input rest
    | some pos =>
      match byteTakeTo input pos, byteDropFrom input (pos + utf8Len sym) with
      | some l, some r =>
        .val (.ok (.compare (rustTrim l) op (string_to_datum (rustTrim r))))
      | _, _ => .crash

/-- `parse_comparison` (filter.rs): trailing `IS NOT NULL` / `IS NULL`
(matched on the uppercased clause), then a quote-aware `IN` keyword with a
parenthesized list, then the binary-operator loop. -/
def parse_comparison (input0 : List Char) : RRes (Except (List Char) Pred) :=
  let input := rustTrim input0
  let upper := rustToUpper input
  if (" IS NOT NULL".toList).isSuffixOf upper then
    match byteTakeTo input (utf8Len input - 12) with
    | some col => .val (.ok (.isNotNullP (rustTrim col)))
    | none => .crash
  else if (" IS NULL".toList).isSuffixOf upper then
    match byteTakeTo input (utf8Len input - 8) with
    | some col => .val (.ok (.isNullP (rustTrim col)))
    | none => .crash
  else
    match find_keyword_pos upper (" IN ".toList) with
    | some inPos =>
      match byteTakeTo input inPos, byteDropFrom input (inPos + 4) with
      | some colRaw, some listRaw =>
        let col := rustTrim colRaw
        let listPart := rustTrim listRaw
        if listPart.head? = some (Char.ofNat 40) ∧ listPart.getLast? = some (Char.ofNat 41) then
          let inner := (listPart.drop 1).dropLast
          let values := parse_list_values inner
          .val (.ok (.inP col (values.map string_to_datum)))
        else .val (.error ("invalid IN expression: ".toList ++ input))
      | _, _ => .crash
    | none => tryOps input opTable

/-- `parse_and_expr` (filter.rs), with structural fuel standing in for the
recursion on the strictly shorter right-hand remainder: `fuel` starts at
`input.length + 1` and every recursive call shortens the input, so the
`crash` on exhausted fuel is unreachable. Errors short-circuit exactly as
Rust `?` does. -/
def parse_and_expr : Nat → List Char → RRes (Except (List Char) Pred)
  | 0, _ => .crash
  | fuel + 1, input =>
    match split_combinator input (" AND ".toList) with
    | .crash => .crash
    | .val none => parse_comparison input
    | .val (some (left, right)) =>
      match parse_comparison left with
      | .crash => .crash
      | .val (.error e) => .val (.error e)
      | .val (.ok l) =>
        match parse_and_expr fuel right with
        | .crash => .crash
        | .val (.error e) => .val (.error e)
        | .val (.ok r) => .val (.ok (.andP l r))

/-- `parse_or_expr` (filter.rs), fuelled like `parse_and_expr`. -/
def parse_or_expr : Nat → List Char → RRes (Except (List Char) Pred)
  | 0, _ => .crash
  | fuel + 1, input =>
    match split_combinator input (" OR ".toList) with
    | .crash => .crash
    | .val none => parse_and_expr (fuel + 1) input
    | .val (some (left, right)) =>
      match parse_and_expr (fuel + 1) left with
      | .crash => .crash
      | .val (.error e) => .val (.error e)
      | .val (.ok l) =>
        match parse_or_expr fuel right with
        | .crash => .crash
        | .val (.error e) => .val (.error e)
        | .val (.ok r) => .val (.ok (.orP l r))

/-- `parse_filter` (filter.rs): trim, reject empty input, then parse the
`Or`-level expression. -/
def parse_filter (input0 : List Char) : RRes (Except (List Char) Pred) :=
  let input := rustTrim input0
  if input.isEmpty then .val (.error ("empty filter expression".toList))
  else parse_or_expr (input.length + 1) input

/-! ## The scan limiter (`src/loader/scan.rs`)

An arrow `RecordBatch` is embedded as its schema's column names plus a
list of rows (row payload abstracted to one `Nat` per row); the arrow
stream delivered by the external table store is a list of batches. The
builder configuration (columns / filter / snapshot id) and stream errors
happen outside the collection loop and are modelled at the task level. -/

/-- An arrow `RecordBatch`: column names of its schema and its rows. -/
structure RecordBatchM : Type where
  cols : List (List Char)
  rows : List Nat
deriving DecidableEq, Repr

/-- `RecordBatch::num_rows`. -/
def RecordBatchM.num_rows (b : RecordBatchM) : Nat :=
  b.rows.length

/-- `RecordBatch::slice(offset, length)`: a zero-copy row window; the
schema is kept. -/
def RecordBatchM.slice (b : RecordBatchM) (offset length : Nat) : RecordBatchM :=
  ⟨b.cols, (b.rows.drop offset).take length⟩

/-- All rows of a batch sequence, in order. -/
def batchRows (bs : List RecordBatchM) : List Nat :=
  (bs.map RecordBatchM.rows).flatten

/-- Rust `Option::is_some_and`. -/
def isSomeAnd (o : Option Nat) (p : Nat → Bool) : Bool :=
  match o with
  | some x => p x
  | none => false

/-- `ScanResult` (scan.rs). -/
structure ScanResultM : Type where
  batches : List RecordBatchM
  has_more : Bool
deriving DecidableEq, Repr

/-- `total_row_count` (arrow_convert.rs): `num_rows` summed over batches. -/
def total_row_count (batches : List RecordBatchM) : Nat :=
  (batches.map RecordBatchM.num_rows).sum

/-- `column_names` (arrow_convert.rs): the field names of the first
batch's schema, or empty when there are no batches. -/
def column_names (batches : List RecordBatchM) : List (List Char) :=
  match batches with
  | [] => []
  | b :: _ => b.cols

/-- The `while let Some(batch) = stream.try_next()` loop of `execute_scan`:
push each batch, add its row count to `collected`, and break once
`limit.is_some_and(|lim| collected >= lim)`. Returns the pushed batches
and the final `collected`. -/
def scanCollect (limit : Option Nat) : List RecordBatchM → Nat → List RecordBatchM × Nat
  | [], collected => ([], collected)
  | b :: rest, collected =>
    let c := collected + b.num_rows
    if isSomeAnd limit (fun lim => decide (lim ≤ c)) then ([b], c)
    else
      let p := scanCollect limit rest c
      (b :: p.1, p.2)

/-- `limit_batches` (scan.rs): walk the batches, keeping whole batches
while rows remain and slicing the final kept batch from its front
(`batch.slice(0, take)` with `take = remaining.min(batch.num_rows())`). -/
def limit_batches : List RecordBatchM → Nat → List RecordBatchM
  | _, 0 => []
  | [], _ + 1 => []
  | b :: rest, r + 1 =>
    b.slice 0 (min (r + 1) b.num_rows) :: limit_batches rest (r + 1 - min (r + 1) b.num_rows)

/-- `execute_scan` (scan.rs), after the stream has been produced by the
external builder: collect with early termination, compute `has_more`,
then truncate with `limit_batches` when a limit was requested. -/
def execute_scan (stream : List RecordBatchM) (limit : Option Nat) : ScanResultM :=
  let p := scanCollect limit stream 0
  let has_more := isSomeAnd limit (fun lim => decide (lim ≤ p.2))
  let batches :=
    match limit with
    | some l => limit_batches p.1 l
    | none => p.1
  ⟨batches, has_more⟩

/-! ## Messages, actions and the foreground state machine
(`src/event.rs`, `src/ui/mod.rs`, `src/app.rs`) -/

/-- `Tab` (ui/mod.rs). -/
inductive Tab : Type where
  | data | schema | snapshots | files | properties
deriving DecidableEq, Repr

/-- `Tab::ALL` (ui/mod.rs) — note its order: Data, Schema, Files,
Properties, Snapshots. -/
def Tab.all : List Tab :=
  [.data, .schema, .files, .properties, .snapshots]

/-- `Tab::from_index` (ui/mod.rs). -/
def Tab.from_index (i : Nat) : Option Tab :=
  Tab.all.get? i

/-- `Focus` (ui/mod.rs). -/
inductive Focus : Type where
  | left | right | filterBar | columnSelector
deriving DecidableEq, Repr

/-- `ManifestInfo` (model/table_info.rs), abstracted to the manifest path;
the counters copied verbatim from the manifest-list entry enter no claim. -/
structure ManifestInfoM : Type where
  path : List Char
deriving DecidableEq, Repr

/-- `DataFileInfo` (model/table_info.rs), abstracted to path and row
count; the statistics maps enter no claim. -/
structure DataFileInfoM : Type where
  file_path : List Char
  record_count : Nat
deriving DecidableEq, Repr

/-- `AppMessage` (event.rs). `MetadataReady` carries the two pieces of the
boxed `TableMetadata` the state machine reads: the current snapshot id,
and each snapshot's optional schema id (fed to
`SnapshotPanel::schema_id_for_snapshot`). -/
inductive AppMessageM : Type where
  | dataReady (batches : List RecordBatchM) (total_rows : Nat) (has_more : Bool)
  | metadataReady (current_snapshot_id : Option Int)
      (snapshot_schema_ids : List (Int × Option Int))
  | manifestsReady (summaries : List ManifestInfoM)
  | dataFileStatsReady (grouped : List (List DataFileInfoM))
  | totalRowCount (n : Nat)
  | loadingStarted (label : List Char)
  | loadingFinished
  | error (text : List Char)
deriving DecidableEq, Repr

/-- `Action` (event.rs). -/
inductive ActionM : Type where
  | quit
  | switchTab (idx : Nat)
  | focusNext
  | focusPrev
  | toggleHelp
  | toggleColumnSelector
  | focusFilter
  | reload
  | increaseLimit
  | submitFilter (text : List Char)
  | toggleColumn (name : List Char)
  | selectSnapshot (id : Int)
deriving DecidableEq, Repr

/-- A background task spawned by `App::handle_action`, identified by the
arguments the spawn receives (`spawn_rescan`, `spawn_count_rows`, and the
inline `load_manifests` wrapper). -/
inductive TaskM : Type where
  | rescanT (predicate : Option Pred) (columns : List (List Char))
      (snapshot_id : Option Int) (limit : Option Nat)
  | countRowsT (snapshot_id : Option Int)
  | loadManifestsT (snapshot_id : Option Int)
deriving DecidableEq, Repr

/-- `ScanRequest` (scan.rs). -/
structure ScanRequestM : Type where
  columns : Option (List (List Char))
  filter : Option Pred
  snapshot_id : Option Int
  limit : Option Nat
deriving DecidableEq, Repr

/-- The `ScanRequest` the `spawn_rescan` task body builds from its spawn
arguments: an empty column list becomes `columns: None`. -/
def rescanRequest (predicate : Option Pred) (columns : List (List Char))
    (snapshot_id : Option Int) (limit : Option Nat) : ScanRequestM :=
  ⟨if columns.isEmpty then none else some columns, predicate, snapshot_id, limit⟩

/-- The foreground `App` state (app.rs), restricted to the fields the
claims touch. Panel-internal display state (list cursors, scroll offsets,
status-bar text, the cached manifest/file lists themselves) is omitted;
of the manifest panel only the `loaded` flag driving
`needs_load`/`invalidate` is kept, of the column selector the list
`enabled_columns()` currently returns, of the snapshot panel the
snapshot-to-schema-id table backing `schema_id_for_snapshot`, and of the
status bar the `filter_active` flag `SubmitFilter` writes. -/
structure AppState : Type where
  active_tab : Tab
  focus : Focus
  help_visible : Bool
  filter_editing : Bool
  selector_visible : Bool
  selector_enabled : List (List Char)
  visible_columns : List (List Char)
  all_columns : List (List Char)
  data_rows : List RecordBatchM
  applied_filter : Option (List Char)
  filter_active : Bool
  manifest_loaded : Bool
  snapshot_schema_ids : List (Int × Option Int)
  viewed_schema_id : Option Int
  initial_columns : Option (List (List Char))
  limit : Option Nat
  page_size : Nat
  has_more : Bool
  selected_snapshot_id : Option Int
  current_snapshot_id : Option Int
deriving DecidableEq, Repr

/-- The ambient state `handle_action` consults besides `self`: whether
the `TABLE_HANDLE` slot currently holds a handle. -/
structure ActionEnv : Type where
  handle_installed : Bool
deriving DecidableEq, Repr

/-- What one `handle_action` call produces: the quit flag it returns, the
new state, the messages it sends directly on the bus, and the background
tasks it spawns, in order. -/
structure ActionResult : Type where
  quit : Bool
  state : AppState
  sent : List AppMessageM
  tasks : List TaskM
deriving DecidableEq, Repr

/-- `self.filter_bar.applied_filter().and_then(|f| parse_filter(f).ok())`
as used by `SelectSnapshot`, `IncreaseLimit` and `Reload`: parse errors
are discarded, a parser panic propagates. -/
def appliedPredicate (st : AppState) : RRes (Option Pred) :=
  match st.applied_filter with
  | none => .val none
  | some f =>
    match parse_filter f with
    | .crash => .crash
    | .val (.ok p) => .val (some p)
    | .val (.error _) => .val none

/-- `SnapshotPanel::schema_id_for_snapshot` (snapshot_panel.rs). -/
def schema_id_for_snapshot (table : List (Int × Option Int)) (snapshot_id : Int) :
    Option Int :=
  (table.find? (fun p => p.1 = snapshot_id)).bind (fun p => p.2)

/-- `App::handle_action` (app.rs). A `crash` outcome propagates a panic of
`parse_filter` on the stored applied-filter text. -/
def handle_action (st : AppState) (env : ActionEnv) (a : ActionM) : RRes ActionResult :=
  match a with
  | .quit => .val ⟨true, st, [], []⟩
  | .switchTab idx =>
    match Tab.from_index idx with
    | none => .val ⟨false, st, [], []⟩
    | some tab =>
      let st' := { st with active_tab := tab, focus := .left }
      if tab = .files ∧ ¬st'.manifest_loaded then
        .val ⟨false, st', [], [.loadManifestsT st'.selected_snapshot_id]⟩
      else .val ⟨false, st', [], []⟩
  | .focusNext =>
    .val ⟨false, { st with focus :=
      match st.focus with
      | .left => .right
      | .right => .left
      | _ => .left }, [], []⟩
  | .focusPrev =>
    .val ⟨false, { st with focus :=
      match st.focus with
      | .left => .right
      | .right => .left
      | _ => .left }, [], []⟩
  | .toggleHelp => .val ⟨false, { st with help_visible := !st.help_visible }, [], []⟩
  | .focusFilter =>
    .val ⟨false, { st with focus := .filterBar, filter_editing := true }, [], []⟩
  | .toggleColumnSelector =>
    if st.selector_visible then
      .val ⟨false,
        { st with
            selector_visible := false
            focus := .left
            visible_columns := st.selector_enabled }, [], []⟩
    else
      .val ⟨false, { st with selector_visible := true, focus := .columnSelector }, [], []⟩
  | .toggleColumn _ =>
    .val ⟨false, { st with visible_columns := st.selector_enabled }, [], []⟩
  | .submitFilter text =>
    let st1 := { st with focus := .left, limit := some st.page_size }
    if text.isEmpty then
      .val ⟨false, { st1 with filter_active := false }, [],
        [.rescanT none st1.visible_columns st1.selected_snapshot_id st1.limit]⟩
    else
      match parse_filter text with
      | .crash => .crash
      | .val (.error e) =>
        .val ⟨false, st1, [.error ("Filter error: ".toList ++ e)], []⟩
      | .val (.ok p) =>
        .val ⟨false, { st1 with filter_active := true }, [],
          [.rescanT (some p) st1.visible_columns st1.selected_snapshot_id st1.limit]⟩
  | .selectSnapshot id =>
    let isCurrent := st.current_snapshot_id = some id
    let sel : Option Int := if isCurrent then none else some id
    let schemaId := sel.bind (schema_id_for_snapshot st.snapshot_schema_ids)
    let st' :=
      { st with
          selected_snapshot_id := sel
          limit := some st.page_size
          viewed_schema_id := schemaId
          manifest_loaded := false }
    let manifestTasks := if st.active_tab = Tab.files then [TaskM.loadManifestsT sel] else []
    match appliedPredicate st with
    | .crash => .crash
    | .val predicate =>
      let countTasks := if env.handle_installed then [TaskM.countRowsT sel] else []
      .val ⟨false, st', [],
        manifestTasks ++ [.rescanT predicate [] sel (some st.page_size)] ++ countTasks⟩
  | .increaseLimit =>
    if !st.has_more then .val ⟨false, st, [], []⟩
    else
      let loaded := st.limit.getD 0
      let newLimit := some (loaded + st.page_size)
      match appliedPredicate st with
      | .crash => .crash
      | .val predicate =>
        .val ⟨false, { st with limit := newLimit }, [],
          [.rescanT predicate st.visible_columns st.selected_snapshot_id newLimit]⟩
  | .reload =>
    match appliedPredicate st with
    | .crash => .crash
    | .val predicate =>
      .val ⟨false, st, [],
        [.rescanT predicate st.visible_columns st.selected_snapshot_id st.limit]⟩

/-- `App::handle_message` (app.rs): every component inspects the message
first (of their updates the claim-relevant fields are kept: the data
view's batches and column lists, the manifest panel's `loaded` flag, the
snapshot panel's schema-id table), then the `App`-level updates of
`current_snapshot_id` and, for `DataReady`, of `has_more`, `limit` and
the column bookkeeping, in source order. -/
def handle_message (st : AppState) (m : AppMessageM) : AppState :=
  match m with
  | .dataReady batches total_rows hm =>
    let new_cols := column_names batches
    let vis0 :=
      if st.all_columns ≠ new_cols ∨ st.visible_columns.isEmpty then new_cols
      else st.visible_columns
    let st1 :=
      { st with
          data_rows := batches
          all_columns := new_cols
          visible_columns := vis0 }
    let st2 := { st1 with has_more := hm, limit := some total_rows }
    let vis_cols :=
      match st2.initial_columns with
      | some cols => cols
      | none => st2.all_columns
    let st3 := { st2 with selector_enabled := st2.all_columns.filter (vis_cols.contains ·) }
    if st3.initial_columns.isSome then { st3 with visible_columns := vis_cols } else st3
  | .metadataReady cur ids =>
    { st with current_snapshot_id := cur, snapshot_schema_ids := ids }
  | .manifestsReady _ => { st with manifest_loaded := true }
  | _ => st

/-! ## Background-task message traces (`src/app.rs`)

Each spawned operation is embedded as the exact ordered list of messages
it sends on the bus, as a function of the outcomes of its external I/O
calls. -/

/-- The I/O outcomes feeding one `spawn_initial_load` run: the
`load_direct`/`load_from_catalog` result, then `extract_metadata`, then
`execute_scan` — each one an error or its payload. -/
structure InitialLoadEnv : Type where
  load_result : Except (List Char) Unit
  metadata_result : Except (List Char) (Option Int × List (Int × Option Int))
  scan_result : Except (List Char) ScanResultM

/-- `spawn_initial_load` (app.rs): its full message trace. After the
final `LoadingFinished` the task installs the handle into `TABLE_HANDLE`
and spawns the separate row-count task (trace `spawn_count_rows_msgs`). -/
def spawn_initial_load_msgs (env : InitialLoadEnv) : List AppMessageM :=
  [.loadingStarted ("Loading table...".toList)] ++
  match env.load_result with
  | .error e => [.error ("Load error: ".toList ++ e), .loadingFinished]
  | .ok _ =>
    (match env.metadata_result with
     | .ok md => [.metadataReady md.1 md.2]
     | .error e => [.error ("Metadata error: ".toList ++ e)]) ++
    [.loadingStarted ("Scanning data...".toList)] ++
    (match env.scan_result with
     | .ok r => [.dataReady r.batches (total_row_count r.batches) r.has_more]
     | .error e => [.error ("Scan error: ".toList ++ e)]) ++
    [.loadingFinished]

/-- `spawn_rescan` (app.rs): its full message trace, as a function of
whether a handle is installed and of the `execute_scan` outcome. -/
def spawn_rescan_msgs (handle_installed : Bool)
    (scan_result : Except (List Char) ScanResultM) : List AppMessageM :=
  [.loadingStarted ("Scanning...".toList)] ++
  if !handle_installed then [.error ("No table loaded".toList), .loadingFinished]
  else
    (match scan_result with
     | .ok r => [.dataReady r.batches (total_row_count r.batches) r.has_more]
     | .error e => [.error ("Scan error: ".toList ++ e)]) ++
    [.loadingFinished]

/-- `spawn_count_rows` (app.rs): its full message trace — a result on
success, silence on failure. -/
def spawn_count_rows_msgs (count_result : Except (List Char) Nat) : List AppMessageM :=
  match count_result with
  | .ok n => [.totalRowCount n]
  | .error _ => []

/-- One manifest-list entry as the `load_manifests` loop consumes it: the
summary pushed unconditionally, and the `mf.load_manifest` outcome — the
manifest's entries, each with its `is_alive` flag and data-file payload,
or an error. -/
structure ManifestEntryEnv : Type where
  info : ManifestInfoM
  load : Except (List Char) (List (Bool × DataFileInfoM))

/-- The I/O outcomes feeding one `load_manifests` run. -/
structure ManifestLoadEnv : Type where
  handle_installed : Bool
  snapshot_found : Bool
  manifest_list : Except (List Char) (List ManifestEntryEnv)

/-- The `Error` message (if any) the loop emits for one manifest entry. -/
def manifestErrOf (mf : ManifestEntryEnv) : List AppMessageM :=
  match mf.load with
  | .error e => [.error ("Failed to load manifest: ".toList ++ e)]
  | .ok _ => []

/-- The file group the loop pushes for one manifest entry: empty on a
load failure, else the data files of the live entries. -/
def manifestGroupOf (mf : ManifestEntryEnv) : List DataFileInfoM :=
  match mf.load with
  | .error _ => []
  | .ok entries => (entries.filter (fun p => p.1)).map (fun p => p.2)

/-- `load_manifests` (app.rs): its full message trace. -/
def load_manifests_msgs (env : ManifestLoadEnv) : List AppMessageM :=
  if !env.handle_installed then [.error ("No table loaded".toList)]
  else if !env.snapshot_found then [.manifestsReady [], .dataFileStatsReady []]
  else
    match env.manifest_list with
    | .error e => [.error ("Failed to load manifest list: ".toList ++ e)]
    | .ok entries =>
      (entries.map manifestErrOf).flatten ++
      [.manifestsReady (entries.map (fun mf => mf.info)),
       .dataFileStatsReady (entries.map manifestGroupOf)]

/-- The task the `SwitchTab`/`SelectSnapshot` arms spawn around
`load_manifests`: its full message trace, wrapping `load_manifests_msgs`
in `LoadingStarted`/`LoadingFinished`. -/
def spawn_load_manifests_msgs (env : ManifestLoadEnv) : List AppMessageM :=
  [.loadingStarted ("Loading manifests...".toList)] ++ load_manifests_msgs env ++
    [.loadingFinished]

/-! ## Reference definitions and sample data for the claims -/

/-- Modelled from the spec's words (§4.1), as the reference point for the
combinator-splitting claim: scan the input left to right, toggling an
inside-quote flag on each apostrophe; split at the first unquoted
position where the remaining text, uppercased, starts with the
combinator; both sides are trimmed, the right side starting after the
matched combinator. -/
def specSplitGo (comb : List Char) : List Char → List Char → Bool → Option (List Char × List Char)
  | _, [], _ => none
  | acc, c :: rest, inq =>
    let inq' := if c = quoteChar then !inq else inq
    if !inq' && comb.isPrefixOf (rustToUpper (c :: rest)) then
      some (rustTrim acc.reverse, rustTrim ((c :: rest).drop comb.length))
    else specSplitGo comb (c :: acc) rest inq'

/-- Modelled from the spec's words: the split `split_combinator` is
claimed to perform (see `specSplitGo`). -/
def specSplitCombinator (input comb : List Char) : Option (List Char × List Char) :=
  specSplitGo comb [] input false

/-- The operator search the comparison claim describes: try the symbols
in the fixed priority order of the table and return the first symbol that
occurs anywhere in the clause, with its first occurrence's byte position. -/
def firstOpMatch (input : List Char) : List (List Char × CmpOp) → Option (List Char × CmpOp × Nat)
  | [] => none
  | (sym, op) :: rest =>
    match findSub input sym with
    | some pos => some (sym, op, pos)
    | none => firstOpMatch input rest

/-- A sample foreground state: a loaded table whose head snapshot is id 7
(schema id 2), one delivered batch, page size 500, a current limit of 500
and `has_more` set. Used to instantiate claim theorems at concrete
inputs. -/
def sampleState : AppState :=
  { active_tab := .data
    focus := .left
    help_visible := false
    filter_editing := false
    selector_visible := false
    selector_enabled := []
    visible_columns := ["id".toList]
    all_columns := ["id".toList]
    data_rows := [⟨["id".toList], [1, 2, 3]⟩]
    applied_filter := none
    filter_active := false
    manifest_loaded := true
    snapshot_schema_ids := [(7, some 2)]
    viewed_schema_id := none
    initial_columns := none
    limit := some 500
    page_size := 500
    has_more := true
    selected_snapshot_id := none
    current_snapshot_id := some 7 }

/-! ## Lemmas about the scan limiter -/

/-- Rows of the truncated batches: `limit_batches` keeps exactly the first
`l` rows, in order. -/
theorem limit_batches_rows (bs : List RecordBatchM) (l : Nat) :
    batchRows (limit_batches bs l) = (batchRows bs).take l := by
  induction bs generalizing l with
  | nil => cases l <;> simp [limit_batches, batchRows]
  | cons b rest ih =>
    cases l with
    | zero => simp [limit_batches, batchRows]
    | succ r =>
      have hcons : batchRows (b :: rest) = b.rows ++ batchRows rest := by
        simp [batchRows]
      have hcons2 : ∀ b' bs', batchRows (b' :: bs') = b'.rows ++ batchRows bs' := by
        intro b' bs'
        simp [batchRows]
      rw [limit_batches, hcons2, hcons, ih, List.take_append_eq_append_take]
      rcases le_or_lt (r + 1) b.num_rows with h | h
      · have h1 : min (r + 1) b.num_rows = r + 1 := by omega
        rw [h1]
        have h2 : r + 1 - (r + 1) = 0 := by omega
        have h3 : r + 1 - b.rows.length = 0 := by
          have : b.num_rows = b.rows.length := rfl
          omega
        simp [h2, h3, RecordBatchM.slice]
      · have h1 : min (r + 1) b.num_rows = b.num_rows := by omega
        have hlen : b.num_rows = b.rows.length := rfl
        rw [h1]
        simp only [RecordBatchM.slice, List.drop_zero, hlen]
        rw [List.take_of_length_le (le_refl b.rows.length),
          List.take_of_length_le (by omega : b.rows.length ≤ r + 1)]

/-- Invariant of the collection loop for a requested limit `n`: the final
`collected` counts the consumed rows; the consumed batches are a prefix of
the stream; either the whole stream was consumed or the limit was
reached; and the limit is reached iff the whole stream holds enough rows. -/
theorem scanCollect_spec (n : Nat) (s : List RecordBatchM) :
    ∀ c : Nat,
      (scanCollect (some n) s c).2 = c + total_row_count (scanCollect (some n) s c).1
    ∧ (∃ t, (scanCollect (some n) s c).1 ++ t = s)
    ∧ ((scanCollect (some n) s c).1 = s ∨ n ≤ (scanCollect (some n) s c).2)
    ∧ (n ≤ (scanCollect (some n) s c).2 ↔ n ≤ c + total_row_count s) := by
  induction s with
  | nil =>
    intro c
    simp [scanCollect, total_row_count]
  | cons b rest ih =>
    intro c
    by_cases hbr : n ≤ c + b.num_rows
    · have hcut : scanCollect (some n) (b :: rest) c = ([b], c + b.num_rows) := by
        simp [scanCollect, isSomeAnd, hbr]
      refine ⟨?_, ⟨rest, ?_⟩, ?_, ?_⟩
      · simp [hcut, total_row_count]
      · simp [hcut]
      · right; simp [hcut]; exact hbr
      · constructor
        · intro _
          have : total_row_count (b :: rest) = b.num_rows + total_row_count rest := by
            simp [total_row_count]
          omega
        · intro _
          simp [hcut]
          exact hbr
    · have hcut : scanCollect (some n) (b :: rest) c =
          (b :: (scanCollect (some n) rest (c + b.num_rows)).1,
           (scanCollect (some n) rest (c + b.num_rows)).2) := by
        simp [scanCollect, isSomeAnd, hbr]
      obtain ⟨hacc, ⟨t, ht⟩, hall, hiff⟩ := ih (c + b.num_rows)
      have htot : total_row_count (b :: rest) = b.num_rows + total_row_count rest := by
        simp [total_row_count]
      refine ⟨?_, ⟨t, ?_⟩, ?_, ?_⟩
      · simp [hcut, total_row_count] at hacc ⊢
        omega
      · simp [hcut, ht]
      · rcases hall with h | h
        · left; simp [hcut, h]
        · right; simp [hcut]; exact h
      · simp [hcut]
        rw [hiff, htot]
        omega

/-- Rows summed over batches are the length of the flattened rows. -/
theorem total_row_count_eq_length_rows (bs : List RecordBatchM) :
    total_row_count bs = (batchRows bs).length := by
  rw [batchRows, List.length_flatten, total_row_count, List.map_map]
  rfl

/-- The rows a limited scan returns are exactly the first `n` rows the
stream produces, in order. -/
theorem execute_scan_rows_take (stream : List RecordBatchM) (n : Nat) :
    batchRows (execute_scan stream (some n)).batches = (batchRows stream).take n := by
  obtain ⟨hacc, ⟨t, ht⟩, hall, hiff⟩ := scanCollect_spec n stream 0
  have hb : (execute_scan stream (some n)).batches =
      limit_batches (scanCollect (some n) stream 0).1 n := rfl
  rw [hb, limit_batches_rows]
  rcases hall with h | h
  · rw [h]
  · have hlen : n ≤ (batchRows (scanCollect (some n) stream 0).1).length := by
      rw [← total_row_count_eq_length_rows]
      omega
    have happ : batchRows (scanCollect (some n) stream 0).1 ++ batchRows t = batchRows stream := by
      rw [batchRows, batchRows, batchRows, ← List.flatten_append, ← List.map_append, ht]
    calc (batchRows (scanCollect (some n) stream 0).1).take n
        = (batchRows (scanCollect (some n) stream 0).1 ++ batchRows t).take n :=
          (List.take_append_of_le_length hlen).symm
      _ = (batchRows stream).take n := by rw [happ]

/-- Total rows returned by a limited scan: `min` of the limit and the
rows the stream holds. -/
theorem execute_scan_total (stream : List RecordBatchM) (n : Nat) :
    total_row_count (execute_scan stream (some n)).batches =
      min n (total_row_count stream) := by
  rw [total_row_count_eq_length_rows, execute_scan_rows_take,
    List.length_take, total_row_count_eq_length_rows]

/-- `has_more` of a limited scan is set exactly when the stream held at
least `n` rows. -/
theorem execute_scan_has_more_iff (stream : List RecordBatchM) (n : Nat) :
    (execute_scan stream (some n)).has_more = true ↔ n ≤ total_row_count stream := by
  obtain ⟨hacc, _, _, hiff⟩ := scanCollect_spec n stream 0
  have hh : (execute_scan stream (some n)).has_more =
      decide (n ≤ (scanCollect (some n) stream 0).2) := rfl
  rw [hh]
  simp only [decide_eq_true_eq]
  omega

/-! ## Claim theorems -/

/-- Claim C1 counterexample: not every spawned operation ends by emitting
`LoadingFinished` — the row-count task emits none at all. Here a
successful count of 5 rows emits exactly `[TotalRowCount 5]`, whose last
message is not `LoadingFinished`. -/
theorem claim_C1_counterexample :
    spawn_count_rows_msgs (.ok 5) = [.totalRowCount 5]
  ∧ (spawn_count_rows_msgs (.ok 5)).getLast? ≠ some AppMessageM.loadingFinished := by
  exact ⟨rfl, by decide⟩

/-- Claim C1 (amended): every spawned operation that touches the loading
indicator — initial load, rescan, manifest load — unconditionally ends
by emitting `LoadingFinished`, on every path including failure paths;
the row-count task emits no loading message at all on any path, so no
spawned operation can leave the loading indicator stuck. -/
theorem claim_C1_loading_finished :
    (∀ env : InitialLoadEnv,
      (spawn_initial_load_msgs env).getLast? = some AppMessageM.loadingFinished)
  ∧ (∀ (hi : Bool) (res : Except (List Char) ScanResultM),
      (spawn_rescan_msgs hi res).getLast? = some AppMessageM.loadingFinished)
  ∧ (∀ env : ManifestLoadEnv,
      (spawn_load_manifests_msgs env).getLast? = some AppMessageM.loadingFinished)
  ∧ (∀ res : Except (List Char) Nat,
      AppMessageM.loadingFinished ∉ spawn_count_rows_msgs res
      ∧ ∀ lbl, AppMessageM.loadingStarted lbl ∉ spawn_count_rows_msgs res) := by
  refine ⟨?_, ?_, ?_, ?_⟩
  · rintro ⟨lr, mr, sr⟩
    cases lr <;> cases mr <;> cases sr <;> rfl
  · intro hi res
    cases hi <;> cases res <;> rfl
  · intro env
    rw [spawn_load_manifests_msgs, List.getLast?_concat]
  · intro res
    cases res <;> simp [spawn_count_rows_msgs]

/-- Claim C2 (code bug): combinator splitting is specified to split at
the first unquoted case-insensitive occurrence of the keyword, but
`split_combinator` checks the uppercased text at byte offsets of the
original, which drift apart when uppercasing changes byte widths. On
`"ﬀ OR x"` (U+FB00 uppercases to the two ASCII letters `FF`) the
spec-level scan (`specSplitCombinator`) finds the unquoted `" OR "`, yet
the code finds no split, and the whole compile fails instead of building
an `Or` node. On width-preserving inputs the claimed behaviour is borne
out: `"a = 1 OR b = 2 OR c = 3"` compiles to the right-leaning
`Or(a=1, Or(b=2, c=3))`, and `"name = 'A AND B'"` compiles to a single
`Compare` node because the quoted keyword is not a combinator. -/
theorem claim_C2_split_eval :
    specSplitCombinator ("ﬀ OR x".toList) (" OR ".toList) =
      some ("ﬀ".toList, "x".toList)
  ∧ split_combinator ("ﬀ OR x".toList) (" OR ".toList) = .val none
  ∧ parse_filter ("ﬀ OR x".toList) =
      .val (.error ("cannot parse filter expression: ﬀ OR x".toList))
  ∧ parse_filter ("a = 1 OR b = 2 OR c = 3".toList) =
      .val (.ok (.orP (.compare ("a".toList) .eqOp (.long 1))
        (.orP (.compare ("b".toList) .eqOp (.long 2))
              (.compare ("c".toList) .eqOp (.long 3)))))
  ∧ parse_filter ("name = \x27A AND B\x27".toList) =
      .val (.ok (.compare ("name".toList) .eqOp (.str ("A AND B".toList)))) := by
  exact ⟨rfl, rfl, rfl, rfl, rfl⟩

/-- Claim C4 (code bug): the compiler is specified never to panic, but
`parse_filter "ıı = 1"` panics: the input is 8 bytes, its uppercase
`II = 1` is 6 bytes (U+0131 uppercases to the one-byte `I`), and
`split_combinator` slices the uppercase at the input's byte offset 7 —
out of bounds. On empty input the specified behaviour holds: `""` and
`"   "` produce the non-empty `ParseError` text
`empty filter expression` instead of crashing. -/
theorem claim_C4_never_panics_eval :
    parse_filter ("ıı = 1".toList) = RRes.crash
  ∧ parse_filter ("".toList) = .val (.error ("empty filter expression".toList))
  ∧ parse_filter ("   ".toList) = .val (.error ("empty filter expression".toList))
  ∧ ("empty filter expression".toList) ≠ [] := by
  exact ⟨rfl, rfl, rfl, by decide⟩

/-- Claim C5: for every scan executed with a requested limit `n`,
`has_more` is true iff the collected rows reached `n`: a scan returning
strictly fewer than `n` rows has `has_more = false`, a scan returning
exactly `n` rows has `has_more = true`, and a scan without a limit always
has `has_more = false`. -/
theorem claim_C5_has_more (stream : List RecordBatchM) (n : Nat) :
    ((execute_scan stream (some n)).has_more = true ↔
      total_row_count (execute_scan stream (some n)).batches = n)
  ∧ ((execute_scan stream (some n)).has_more = false ↔
      total_row_count (execute_scan stream (some n)).batches < n)
  ∧ (execute_scan stream none).has_more = false := by
  refine ⟨?_, ?_, rfl⟩
  · rw [execute_scan_total, execute_scan_has_more_iff]
    omega
  · rw [execute_scan_total, Bool.eq_false_iff, ne_eq, execute_scan_has_more_iff]
    omega

/-- Claim C10: a scan with limit `n` returns at most `n` rows, and the
returned rows are an in-order front of the rows the stream produced:
flattening the returned batches yields exactly the first `n` stream rows,
so rows are never reordered or sampled from the middle. -/
theorem claim_C10_limit_prefix (stream : List RecordBatchM) (n : Nat) :
    total_row_count (execute_scan stream (some n)).batches ≤ n
  ∧ batchRows (execute_scan stream (some n)).batches = (batchRows stream).take n
  ∧ ∃ t, batchRows (execute_scan stream (some n)).batches ++ t = batchRows stream := by
  refine ⟨?_, execute_scan_rows_take stream n, ?_⟩
  · rw [execute_scan_total]
    omega
  · rw [execute_scan_rows_take]
    exact ⟨(batchRows stream).drop n, List.take_append_drop n (batchRows stream)⟩

/-- Claim C9: `load_manifests` error containment. A missing snapshot
yields empty `ManifestsReady` and `DataFileStatsReady` messages rather
than an error; with a snapshot and a loaded manifest list, the trace is
some `Error` messages followed by `ManifestsReady` and then
`DataFileStatsReady`; one file group per manifest is emitted even when
some manifests fail to load, a failing manifest contributing an empty
group and a reported `Error` while the others still carry their live
files. -/
theorem claim_C9_load_manifests :
    (∀ env : ManifestLoadEnv, env.handle_installed = true → env.snapshot_found = false →
      load_manifests_msgs env =
        [.manifestsReady [], .dataFileStatsReady []])
  ∧ (∀ (env : ManifestLoadEnv) (entries : List ManifestEntryEnv),
      env.handle_installed = true → env.snapshot_found = true →
      env.manifest_list = .ok entries →
      ∃ pre,
        load_manifests_msgs env =
          pre ++ [.manifestsReady (entries.map (fun mf => mf.info)),
                  .dataFileStatsReady (entries.map manifestGroupOf)]
        ∧ (∀ m ∈ pre, ∃ t, m = AppMessageM.error t)
        ∧ (entries.map manifestGroupOf).length = entries.length
        ∧ (∀ i : Fin entries.length, ∀ e, (entries.get i).load = .error e →
            manifestGroupOf (entries.get i) = []
            ∧ AppMessageM.error ("Failed to load manifest: ".toList ++ e) ∈ pre)) := by
  constructor
  · rintro ⟨hi, sf, ml⟩ h1 h2
    simp only at h1 h2
    subst h1; subst h2
    rfl
  · rintro ⟨hi, sf, ml⟩ entries h1 h2 h3
    simp only at h1 h2 h3
    subst h1; subst h2; subst h3
    refine ⟨(entries.map manifestErrOf).flatten, rfl, ?_, List.length_map _ _, ?_⟩
    · intro m hm
      rw [List.mem_flatten] at hm
      obtain ⟨l, hl, hml⟩ := hm
      rw [List.mem_map] at hl
      obtain ⟨mf, _, rfl⟩ := hl
      cases hload : mf.load with
      | error e =>
        rw [manifestErrOf, hload] at hml
        simp at hml
        exact ⟨_, hml⟩
      | ok fs =>
        rw [manifestErrOf, hload] at hml
        simp at hml
    · intro i e herr
      refine ⟨by rw [manifestGroupOf, herr], ?_⟩
      rw [List.mem_flatten]
      refine ⟨manifestErrOf (entries.get i),
        List.mem_map_of_mem _ (List.get_mem entries i.1 i.2), ?_⟩
      rw [manifestErrOf, herr]
      simp

/-- Claim C9 witness: a missing snapshot and a one-manifest list whose
single manifest fails to load, both at concrete inputs. -/
theorem claim_C9_witness :
    load_manifests_msgs ⟨true, false, .ok []⟩ =
      [.manifestsReady [], .dataFileStatsReady []]
  ∧ ∃ pre,
      load_manifests_msgs
          ⟨true, true, .ok [⟨⟨"m1".toList⟩, .error ("boom".toList)⟩]⟩ =
        pre ++ [.manifestsReady [⟨"m1".toList⟩], .dataFileStatsReady [[]]] := by
  constructor
  · exact claim_C9_load_manifests.1 ⟨true, false, .ok []⟩ rfl rfl
  · obtain ⟨pre, hpre, -, -, -⟩ :=
      claim_C9_load_manifests.2
        ⟨true, true, .ok [⟨⟨"m1".toList⟩, .error ("boom".toList)⟩]⟩
        [⟨⟨"m1".toList⟩, .error ("boom".toList)⟩] rfl rfl rfl
    exact ⟨pre, hpre⟩

/-- Every character occupies at least one byte. -/
theorem utf8Size_pos (c : Char) : 1 ≤ utf8Size c := by
  rw [utf8Size]
  split_ifs <;> omega

/-- Byte length of a cons cell. -/
theorem utf8Len_cons (c : Char) (s : List Char) :
    utf8Len (c :: s) = utf8Size c + utf8Len s := by
  simp [utf8Len]

/-- Byte length adds over append. -/
theorem utf8Len_append (l r : List Char) :
    utf8Len (l ++ r) = utf8Len l + utf8Len r := by
  simp [utf8Len]

/-- Slicing `..` at the exact byte boundary between `l` and `r` keeps `l`. -/
theorem byteTakeTo_exact (l r : List Char) : byteTakeTo (l ++ r) (utf8Len l) = some l := by
  induction l with
  | nil => cases r <;> rfl
  | cons c l' ih =>
    have hpos := utf8Size_pos c
    rw [utf8Len_cons]
    cases hn : utf8Size c + utf8Len l' with
    | zero => omega
    | succ m =>
      rw [List.cons_append, byteTakeTo]
      have hle : utf8Size c ≤ m + 1 := by omega
      rw [if_pos hle]
      have : m + 1 - utf8Size c = utf8Len l' := by omega
      rw [this, ih]
      rfl

/-- Slicing `..` at the exact byte boundary between `l` and `r` keeps `r`. -/
theorem byteDropFrom_exact (l r : List Char) : byteDropFrom (l ++ r) (utf8Len l) = some r := by
  induction l with
  | nil => cases r <;> rfl
  | cons c l' ih =>
    have hpos := utf8Size_pos c
    rw [utf8Len_cons]
    cases hn : utf8Size c + utf8Len l' with
    | zero => omega
    | succ m =>
      rw [List.cons_append, byteDropFrom]
      have hle : utf8Size c ≤ m + 1 := by omega
      rw [if_pos hle]
      have : m + 1 - utf8Size c = utf8Len l' := by omega
      rw [this, ih]

/-- A successful substring search decomposes the string around the
pattern, the reported byte position being the byte length of the part
before the match. -/
theorem findSubGo_decomp (pat : List Char) :
    ∀ (s : List Char) (i pos : Nat), findSubGo pat s i = some pos →
      ∃ l rest2, s = l ++ (pat ++ rest2) ∧ pos = i + utf8Len l := by
  intro s
  induction s with
  | nil => intro i pos h; simp [findSubGo] at h
  | cons c rest ih =>
    intro i pos h
    rw [findSubGo] at h
    by_cases hp : pat.isPrefixOf (c :: rest)
    · rw [if_pos hp] at h
      injection h with h
      subst h
      obtain ⟨t, ht⟩ := List.isPrefixOf_iff_prefix.mp hp
      refine ⟨[], t, by rw [List.nil_append, ht], by simp [utf8Len]⟩
    · rw [if_neg hp] at h
      obtain ⟨l, rest2, hs, hpos⟩ := ih (i + utf8Size c) pos h
      refine ⟨c :: l, rest2, by rw [List.cons_append, hs], ?_⟩
      rw [hpos, utf8Len_cons]
      omega

/-- `str::find` reports a valid boundary: both slices the comparison code
takes at the match succeed, splitting the string around the pattern. -/
theorem findSub_slices (s pat : List Char) (pos : Nat) (h : findSub s pat = some pos) :
    ∃ l rest2, s = l ++ (pat ++ rest2) ∧ pos = utf8Len l
    ∧ byteTakeTo s pos = some l
    ∧ byteDropFrom s (pos + utf8Len pat) = some rest2 := by
  obtain ⟨l, rest2, hs, hpos⟩ := findSubGo_decomp pat s 0 pos h
  have hpos' : pos = utf8Len l := by omega
  subst hpos'
  subst hs
  refine ⟨l, rest2, rfl, rfl, byteTakeTo_exact l (pat ++ rest2), ?_⟩
  rw [← List.append_assoc, ← utf8Len_append]
  exact byteDropFrom_exact (l ++ pat) rest2

/-- The operator loop of `parse_comparison` is the priority-first search:
if `firstOpMatch` finds `(sym, op, pos)` in the table, then `findSub`
found `sym` at `pos` and the loop builds the corresponding comparison. -/
theorem tryOps_eq_of_firstOpMatch (input : List Char) :
    ∀ (table : List (List Char × CmpOp)) (sym : List Char) (op : CmpOp) (pos : Nat),
      firstOpMatch input table = some (sym, op, pos) →
      findSub input sym = some pos
      ∧ tryOps input table =
          (match byteTakeTo input pos, byteDropFrom input (pos + utf8Len sym) with
           | some l, some r =>
              .val (.ok (.compare (rustTrim l) op (string_to_datum (rustTrim r))))
           | _, _ => .crash) := by
  intro table
  induction table with
  | nil => intro sym op pos h; simp [firstOpMatch] at h
  | cons hd rest ih =>
    rintro sym op pos h
    obtain ⟨sym0, op0⟩ := hd
    rw [firstOpMatch] at h
    cases hfind : findSub input sym0 with
    | some p0 =>
      rw [hfind] at h
      injection h with h
      obtain ⟨rfl, rfl, rfl⟩ : sym0 = sym ∧ op0 = op ∧ p0 = pos := by
        refine ⟨congrArg Prod.fst h, ?_, ?_⟩
        · exact congrArg (fun q => q.2.1) h
        · exact congrArg (fun q => q.2.2) h
      exact ⟨hfind, by rw [tryOps, hfind]⟩
    | none =>
      rw [hfind] at h
      obtain ⟨h1, h2⟩ := ih sym op pos h
      exact ⟨h1, by rw [tryOps, hfind]; exact h2⟩

/-- Claim C3: for a clause that is not an `IS NULL` / `IS NOT NULL` / `IN`
clause, the comparison operator is selected by trying `>=, <=, !=, >, <,
=` in that fixed priority order and taking the first symbol found
anywhere in the clause (priority-driven, not leftmost-positional), and
the result is a `Compare` node whose column is the trimmed text left of
the match and whose value is typed by the literal-typing rules. The
evaluations demonstrate the policy (`a < b >= c` picks `>=` although `<`
occurs first positionally) and the typing rules: quoted ⇒ string, i64
range ⇒ long, i64 overflow or decimal point ⇒ double, case-insensitive
booleans, fallback string. -/
theorem claim_C3_comparison_policy :
    (∀ (input : List Char) (sym : List Char) (op : CmpOp) (pos : Nat),
      List.isSuffixOf (" IS NOT NULL".toList) (rustToUpper (rustTrim input)) = false →
      List.isSuffixOf (" IS NULL".toList) (rustToUpper (rustTrim input)) = false →
      find_keyword_pos (rustToUpper (rustTrim input)) (" IN ".toList) = none →
      firstOpMatch (rustTrim input) opTable = some (sym, op, pos) →
      ∃ l r, byteTakeTo (rustTrim input) pos = some l
        ∧ byteDropFrom (rustTrim input) (pos + utf8Len sym) = some r
        ∧ parse_comparison input =
            .val (.ok (.compare (rustTrim l) op (string_to_datum (rustTrim r)))))
  ∧ parse_filter ("a < b >= c".toList) =
      .val (.ok (.compare ("a < b".toList) .geOp (.str ("c".toList))))
  ∧ parse_filter ("x = 42".toList) =
      .val (.ok (.compare ("x".toList) .eqOp (.long 42)))
  ∧ parse_filter ("x = 9223372036854775807".toList) =
      .val (.ok (.compare ("x".toList) .eqOp (.long 9223372036854775807)))
  ∧ parse_filter ("x = 99999999999999999999".toList) =
      .val (.ok (.compare ("x".toList) .eqOp (.double ("99999999999999999999".toList))))
  ∧ parse_filter ("x = 3.5".toList) =
      .val (.ok (.compare ("x".toList) .eqOp (.double ("3.5".toList))))
  ∧ parse_filter ("x = TRUE".toList) =
      .val (.ok (.compare ("x".toList) .eqOp (.boolean true)))
  ∧ parse_filter ("x = False".toList) =
      .val (.ok (.compare ("x".toList) .eqOp (.boolean false)))
  ∧ parse_filter ("x = \x27hi\x27".toList) =
      .val (.ok (.compare ("x".toList) .eqOp (.str ("hi".toList))))
  ∧ parse_filter ("x = hello".toList) =
      .val (.ok (.compare ("x".toList) .eqOp (.str ("hello".toList)))) := by
  refine ⟨?_, rfl, rfl, rfl, rfl, rfl, rfl, rfl, rfl, rfl⟩
  intro input sym op pos h1 h2 h3 h4
  obtain ⟨hfind, htry⟩ := tryOps_eq_of_firstOpMatch (rustTrim input) opTable sym op pos h4
  obtain ⟨l, rest2, hs, hpos, htake, hdrop⟩ := findSub_slices (rustTrim input) sym pos hfind
  refine ⟨l, rest2, htake, hdrop, ?_⟩
  rw [parse_comparison]
  simp only [h1, h2, h3, Bool.false_eq_true, if_false]
  rw [htry, htake, hdrop]

/-- Claim C3 witness: the general statement applied to `"a < b >= c"`,
where the priority order picks `>=` at byte position 6 although `<`
occurs earlier in the text. -/
theorem claim_C3_witness :
    ∃ l r, byteTakeTo (rustTrim ("a < b >= c".toList)) 6 = some l
      ∧ byteDropFrom (rustTrim ("a < b >= c".toList)) (6 + utf8Len (">=".toList)) = some r
      ∧ parse_comparison ("a < b >= c".toList) =
          .val (.ok (.compare (rustTrim l) .geOp (string_to_datum (rustTrim r)))) :=
  claim_C3_comparison_policy.1 ("a < b >= c".toList) (">=".toList) .geOp 6 rfl rfl rfl rfl

/-- Claim C7: `SubmitFilter(text)`. Empty text clears the filter flag,
resets `limit` to the page size and spawns exactly one unfiltered rescan
(whose `ScanRequest.filter` is `none`); text that compiles spawns exactly
one rescan with the new predicate and `limit = pageSize`; text that fails
to compile sends one `Error` message, spawns nothing, and leaves the
delivered scan results untouched. -/
theorem claim_C7_submit_filter :
    (∀ (st : AppState) (env : ActionEnv) (res : ActionResult),
      handle_action st env (.submitFilter []) = .val res →
      res.state.limit = some st.page_size
      ∧ res.state.filter_active = false
      ∧ res.state.data_rows = st.data_rows
      ∧ res.sent = []
      ∧ res.tasks =
          [.rescanT none st.visible_columns st.selected_snapshot_id (some st.page_size)]
      ∧ (rescanRequest none st.visible_columns st.selected_snapshot_id
          (some st.page_size)).filter = none)
  ∧ (∀ (st : AppState) (env : ActionEnv) (text : List Char) (p : Pred) (res : ActionResult),
      text ≠ [] → parse_filter text = .val (.ok p) →
      handle_action st env (.submitFilter text) = .val res →
      res.state.limit = some st.page_size
      ∧ res.state.filter_active = true
      ∧ res.sent = []
      ∧ res.tasks =
          [.rescanT (some p) st.visible_columns st.selected_snapshot_id (some st.page_size)])
  ∧ (∀ (st : AppState) (env : ActionEnv) (text : List Char) (e : List Char) (res : ActionResult),
      text ≠ [] → parse_filter text = .val (.error e) →
      handle_action st env (.submitFilter text) = .val res →
      res.sent = [.error ("Filter error: ".toList ++ e)]
      ∧ res.tasks = []
      ∧ res.state.data_rows = st.data_rows
      ∧ res.state.has_more = st.has_more) := by
  refine ⟨?_, ?_, ?_⟩
  · intro st env res h
    simp only [handle_action, List.isEmpty_nil, if_true] at h
    injection h with h
    subst h
    exact ⟨rfl, rfl, rfl, rfl, rfl, rfl⟩
  · intro st env text p res hne hok h
    have hemp : text.isEmpty = false := by
      cases text
      · exact absurd rfl hne
      · rfl
    simp only [handle_action, hemp, Bool.false_eq_true, if_false, hok] at h
    injection h with h
    subst h
    exact ⟨rfl, rfl, rfl, rfl⟩
  · intro st env text e res hne herr h
    have hemp : text.isEmpty = false := by
      cases text
      · exact absurd rfl hne
      · rfl
    simp only [handle_action, hemp, Bool.false_eq_true, if_false, herr] at h
    injection h with h
    subst h
    exact ⟨rfl, rfl, rfl, rfl⟩

/-- Claim C7 witness: the three `SubmitFilter` paths at concrete inputs —
empty text, the compiling filter `a = 1`, and the non-compiling text
`zzz`. -/
theorem claim_C7_witness :
    (∃ res, handle_action sampleState ⟨true⟩ (.submitFilter []) = .val res
      ∧ res.state.limit = some sampleState.page_size
      ∧ res.tasks = [.rescanT none sampleState.visible_columns
          sampleState.selected_snapshot_id (some sampleState.page_size)])
  ∧ (∃ res, handle_action sampleState ⟨true⟩ (.submitFilter ("a = 1".toList)) = .val res
      ∧ res.tasks = [.rescanT (some (.compare ("a".toList) .eqOp (.long 1)))
          sampleState.visible_columns sampleState.selected_snapshot_id
          (some sampleState.page_size)])
  ∧ (∃ res, handle_action sampleState ⟨true⟩ (.submitFilter ("zzz".toList)) = .val res
      ∧ res.sent = [.error ("Filter error: cannot parse filter expression: zzz".toList)]
      ∧ res.tasks = []) := by
  refine ⟨⟨_, rfl, ?_, ?_⟩, ⟨_, rfl, ?_⟩, ⟨_, rfl, ?_, ?_⟩⟩
  · exact (claim_C7_submit_filter.1 sampleState ⟨true⟩ _ rfl).1
  · exact (claim_C7_submit_filter.1 sampleState ⟨true⟩ _ rfl).2.2.2.2.1
  · exact (claim_C7_submit_filter.2.1 sampleState ⟨true⟩ ("a = 1".toList)
      (.compare ("a".toList) .eqOp (.long 1)) _ (by decide) rfl rfl).2.2.2
  · exact (claim_C7_submit_filter.2.2 sampleState ⟨true⟩ ("zzz".toList)
      ("cannot parse filter expression: zzz".toList) _ (by decide) rfl rfl).1
  · exact (claim_C7_submit_filter.2.2 sampleState ⟨true⟩ ("zzz".toList)
      ("cannot parse filter expression: zzz".toList) _ (by decide) rfl rfl).2.1

/-- Claim C8 counterexample: with no table handle installed, no row-count
task is spawned by `SelectSnapshot` — the claim's unconditional "an
independent row count ... (is) triggered" fails. On `sampleState` (head
snapshot 7, no applied filter, Data tab) selecting snapshot 3 spawns
exactly one rescan and nothing else. -/
theorem claim_C8_counterexample :
    handle_action sampleState ⟨false⟩ (.selectSnapshot 3) =
      .val ⟨false,
        { sampleState with
            selected_snapshot_id := some 3
            limit := some 500
            viewed_schema_id := none
            manifest_loaded := false }, [],
        [.rescanT none [] (some 3) (some 500)]⟩
  ∧ TaskM.countRowsT (some 3) ∉ [TaskM.rescanT none [] (some 3) (some 500)] := by
  exact ⟨rfl, by decide⟩

/-- Claim C8 (amended): `SelectSnapshot(id)` sets `selectedSnapshotId` to
`none` when `id` is the current head and to `id` otherwise; in either
case `limit` resets to the page size, the manifest cache is invalidated,
the schema id pinned to the selected snapshot is recomputed, and a rescan
preserving the active filter (scoped to the selected snapshot, with
`limit = pageSize`) is spawned; an independent row count scoped to the
selected snapshot is spawned iff a table handle is installed. -/
theorem claim_C8_select_snapshot (st : AppState) (env : ActionEnv) (id : Int)
    (res : ActionResult) (h : handle_action st env (.selectSnapshot id) = .val res) :
    res.state.selected_snapshot_id =
      (if st.current_snapshot_id = some id then none else some id)
  ∧ res.state.limit = some st.page_size
  ∧ res.state.manifest_loaded = false
  ∧ res.state.viewed_schema_id =
      (if st.current_snapshot_id = some id then none else some id).bind
        (schema_id_for_snapshot st.snapshot_schema_ids)
  ∧ (∃ pred, appliedPredicate st = .val pred
      ∧ TaskM.rescanT pred [] res.state.selected_snapshot_id (some st.page_size) ∈ res.tasks)
  ∧ (TaskM.countRowsT res.state.selected_snapshot_id ∈ res.tasks ↔
      env.handle_installed = true) := by
  cases happ : appliedPredicate st with
  | crash =>
    simp only [handle_action, happ] at h
    exact (RRes.noConfusion h)
  | val pred =>
    simp only [handle_action, happ] at h
    injection h with h
    subst h
    refine ⟨rfl, rfl, rfl, rfl, ⟨pred, rfl, ?_⟩, ?_⟩
    · simp [List.mem_append]
    · cases henv : env.handle_installed <;>
        cases hft : decide (st.active_tab = Tab.files) <;>
        simp_all [List.mem_append]

/-- Claim C8 witness: selecting the non-head snapshot 3 on `sampleState`
with a handle installed. -/
theorem claim_C8_witness :
    ∃ res, handle_action sampleState ⟨true⟩ (.selectSnapshot 3) = .val res
      ∧ res.state.selected_snapshot_id =
          (if sampleState.current_snapshot_id = some 3 then none else some 3)
      ∧ res.state.limit = some sampleState.page_size
      ∧ (TaskM.countRowsT res.state.selected_snapshot_id ∈ res.tasks ↔
          (⟨true⟩ : ActionEnv).handle_installed = true) := by
  refine ⟨_, rfl, ?_, ?_, ?_⟩
  · exact (claim_C8_select_snapshot sampleState ⟨true⟩ 3 _ rfl).1
  · exact (claim_C8_select_snapshot sampleState ⟨true⟩ 3 _ rfl).2.1
  · exact (claim_C8_select_snapshot sampleState ⟨true⟩ 3 _ rfl).2.2.2.2.2

/-- Claim C6 counterexample: an incoming `DataReady` message overwrites
`limit` with the delivered row count, which can shrink it — mirroring the
repository's own test `handle_message_data_ready_updates_has_more`: from
`limit = some 500` (page size 500), `DataReady { total_rows: 300 }` sets
`limit = some 300`, which neither grew nor equals the page size. -/
theorem claim_C6_counterexample :
    (handle_message sampleState (.dataReady [] 300 false)).limit = some 300
  ∧ sampleState.limit = some 500
  ∧ sampleState.page_size = 500
  ∧ (some 300 : Option Nat) ≠ sampleState.limit
  ∧ (some 300 : Option Nat) ≠ some sampleState.page_size
  ∧ (300 : Nat) < 500 := by
  exact ⟨rfl, rfl, rfl, by decide, by decide, by decide⟩

/-- Claim C6 (amended): across every foreground transition, `limit` is
unchanged, or reset to the page size (`SubmitFilter` — even when the
filter fails to compile — and `SelectSnapshot`), or grown by the page
size via `IncreaseLimit` when `has_more` is set; the one further
transition affecting it is an incoming `DataReady` message, which sets it
to the delivered row count (possibly smaller). -/
theorem claim_C6_limit_transitions :
    (∀ (st : AppState) (env : ActionEnv) (a : ActionM) (res : ActionResult),
      handle_action st env a = .val res →
      res.state.limit = st.limit
      ∨ res.state.limit = some st.page_size
      ∨ (a = .increaseLimit ∧ st.has_more = true
          ∧ res.state.limit = some (st.limit.getD 0 + st.page_size)))
  ∧ (∀ (st : AppState) (m : AppMessageM),
      (handle_message st m).limit = st.limit
      ∨ ∃ bs tr hm, m = .dataReady bs tr hm ∧ (handle_message st m).limit = some tr) := by
  constructor
  · intro st env a res h
    cases a with
    | quit =>
      simp only [handle_action] at h
      injection h with h
      subst h
      exact Or.inl rfl
    | switchTab idx =>
      simp only [handle_action] at h
      split at h
      · injection h with h
        subst h
        exact Or.inl rfl
      · split at h
        · injection h with h
          subst h
          exact Or.inl rfl
        · injection h with h
          subst h
          exact Or.inl rfl
    | focusNext =>
      simp only [handle_action] at h
      injection h with h
      subst h
      exact Or.inl rfl
    | focusPrev =>
      simp only [handle_action] at h
      injection h with h
      subst h
      exact Or.inl rfl
    | toggleHelp =>
      simp only [handle_action] at h
      injection h with h
      subst h
      exact Or.inl rfl
    | focusFilter =>
      simp only [handle_action] at h
      injection h with h
      subst h
      exact Or.inl rfl
    | toggleColumnSelector =>
      simp only [handle_action] at h
      split at h
      · injection h with h
        subst h
        exact Or.inl rfl
      · injection h with h
        subst h
        exact Or.inl rfl
    | toggleColumn name =>
      simp only [handle_action] at h
      injection h with h
      subst h
      exact Or.inl rfl
    | submitFilter text =>
      simp only [handle_action] at h
      split at h
      · injection h with h
        subst h
        exact Or.inr (Or.inl rfl)
      · split at h
        · exact (RRes.noConfusion h)
        · injection h with h
          subst h
          exact Or.inr (Or.inl rfl)
        · injection h with h
          subst h
          exact Or.inr (Or.inl rfl)
    | selectSnapshot id =>
      simp only [handle_action] at h
      split at h
      · exact (RRes.noConfusion h)
      · injection h with h
        subst h
        exact Or.inr (Or.inl rfl)
    | increaseLimit =>
      simp only [handle_action] at h
      split at h
      · injection h with h
        subst h
        exact Or.inl rfl
      · rename_i hc
        have hmore : st.has_more = true := by
          cases hhm : st.has_more
          · rw [hhm] at hc
            exact absurd rfl hc
          · rfl
        split at h
        · exact (RRes.noConfusion h)
        · injection h with h
          subst h
          exact Or.inr (Or.inr ⟨rfl, hmore, rfl⟩)
    | reload =>
      simp only [handle_action] at h
      split at h
      · exact (RRes.noConfusion h)
      · injection h with h
        subst h
        exact Or.inl rfl
  · intro st m
    cases m with
    | dataReady bs tr hm =>
      refine Or.inr ⟨bs, tr, hm, rfl, ?_⟩
      simp only [handle_message]
      split <;> rfl
    | metadataReady cur ids => exact Or.inl rfl
    | manifestsReady s => exact Or.inl rfl
    | dataFileStatsReady g => exact Or.inl rfl
    | totalRowCount n => exact Or.inl rfl
    | loadingStarted lbl => exact Or.inl rfl
    | loadingFinished => exact Or.inl rfl
    | error t => exact Or.inl rfl

/-- Claim C6 witness: both parts applied at concrete inputs — the `Quit`
action (limit unchanged) and an `Error` message (limit unchanged). -/
theorem claim_C6_witness :
    (∃ res, handle_action sampleState ⟨true⟩ .quit = .val res
      ∧ (res.state.limit = sampleState.limit
        ∨ res.state.limit = some sampleState.page_size
        ∨ (ActionM.quit = ActionM.increaseLimit ∧ sampleState.has_more = true
            ∧ res.state.limit = some (sampleState.limit.getD 0 + sampleState.page_size))))
  ∧ ((handle_message sampleState (.error ("x".toList))).limit = sampleState.limit
      ∨ ∃ bs tr hm, AppMessageM.error ("x".toList) = .dataReady bs tr hm
          ∧ (handle_message sampleState (.error ("x".toList))).limit = some tr) := by
  constructor
  · exact ⟨_, rfl, claim_C6_limit_transitions.1 sampleState ⟨true⟩ .quit _ rfl⟩
  · exact claim_C6_limit_transitions.2 sampleState (.error ("x".toList))

end Icepeek
